import Mathlib

/-!
# Verification of the drifter data integration core

Shallow embedding of `src/drifterdata/drifter_integration.py`
(`DrifterDataIntegrator`): position interpolation, timeline merging,
derived motion columns and the integration summary.

Conventions of the embedding:
* timestamps are integers (nanoseconds since epoch, the `astype(np.int64)`
  view the source uses for interpolation);
* float values are modelled by `Val`: exact rationals for finite floats,
  plus explicit `pinf` / `ninf` / `nan` (pandas uses NaN for null);
* a pandas DataFrame indexed by `datetime` is a `Table`: a column-name
  list plus rows of `(index timestamp, values aligned with the columns)`;
* raising a Python exception is `Except.error`;
* the linear interpolation path is modelled concretely after scipy's
  `_call_linear` (searchsorted, index clipping, slope arithmetic), with
  IEEE special values: a duplicated track timestamp makes the slope
  0/0 = NaN or ±∞, so the affected coordinates come out NaN/±∞ (null
  cells), exactly as the program produces them;
* scipy's cubic spline is an external library routine; the embedding is
  parametric in the function (`cubicF`) it produces, since only the
  branch structure around it (never its values) decides any property
  below; likewise the haversine distance (`distFn`), which uses
  transcendental functions and whose values no property depends on.
-/

/-- A float-like value as held in a DataFrame cell: a finite float
(exact rational), an infinity, NaN (also the null of pandas), a string
or a boolean. -/
inductive Val where
  | num (q : ℚ)
  | pinf
  | ninf
  | nan
  | str (s : String)
  | boolV (b : Bool)
deriving DecidableEq, Repr

/-- IEEE-style division on cell values, as numpy/pandas perform it for
`df['distance_km'] / (df['time_diff_seconds'] / 3600)`: finite/0 gives a
signed infinity (0/0 gives NaN), NaN propagates.  Non-numeric operands
never reach a division in the integration pipeline; they map to NaN. -/
def Val.divV : Val → Val → Val
  | .num a, .num b =>
      if b = 0 then (if a = 0 then .nan else if 0 < a then .pinf else .ninf)
      else .num (a / b)
  | .num _, .pinf => .num 0
  | .num _, .ninf => .num 0
  | .pinf, .num b => if 0 ≤ b then .pinf else .ninf
  | .ninf, .num b => if 0 ≤ b then .ninf else .pinf
  | _, _ => .nan

/-- IEEE-style multiplication on cell values (used by the slope
arithmetic of scipy's `_call_linear`): an infinity times zero is NaN,
signs multiply, NaN propagates. -/
def Val.mulV : Val → Val → Val
  | .num a, .num b => .num (a * b)
  | .num a, .pinf => if a = 0 then .nan else if 0 < a then .pinf else .ninf
  | .num a, .ninf => if a = 0 then .nan else if 0 < a then .ninf else .pinf
  | .pinf, .num b => if b = 0 then .nan else if 0 < b then .pinf else .ninf
  | .ninf, .num b => if b = 0 then .nan else if 0 < b then .ninf else .pinf
  | .pinf, .pinf => .pinf
  | .pinf, .ninf => .ninf
  | .ninf, .pinf => .ninf
  | .ninf, .ninf => .pinf
  | _, _ => .nan

/-- IEEE-style addition on cell values: opposite infinities give NaN,
NaN propagates. -/
def Val.addV : Val → Val → Val
  | .num a, .num b => .num (a + b)
  | .num _, .pinf => .pinf
  | .num _, .ninf => .ninf
  | .pinf, .num _ => .pinf
  | .ninf, .num _ => .ninf
  | .pinf, .pinf => .pinf
  | .ninf, .ninf => .ninf
  | .pinf, .ninf => .nan
  | .ninf, .pinf => .nan
  | _, _ => .nan

/-- Whether a cell holds a finite float. -/
def Val.isNum : Val → Bool
  | .num _ => true
  | _ => false

/-- `Series.replace([np.inf, -np.inf], np.nan)` on one cell. -/
def replaceInf : Val → Val
  | .pinf => .nan
  | .ninf => .nan
  | v => v

/-- The speed cell computed by `_add_derived_columns`:
`speed_kmh = distance_km / (time_diff_seconds / 3600)` followed by the
replacement of infinities with NaN. -/
def speedOf (dist td : Val) : Val :=
  replaceInf (Val.divV dist (Val.divV td (Val.num 3600)))

/-- One recorded GPS fix of `self.gpx_data`: timestamp (ns) and possibly
NaN coordinates. -/
structure TrackPoint where
  timestamp : ℤ
  latitude : Option ℚ
  longitude : Option ℚ
deriving DecidableEq, Repr

/-- One output row of `interpolate_positions`: the `datetime`,
`latitude`, `longitude`, `interpolated` columns of the result frame.
Coordinates are float cells: finite values, but also NaN (the all-null
degraded rows, and the products of degenerate slope arithmetic on
duplicated track timestamps) or an infinity. -/
structure PosRow where
  datetime : ℤ
  latitude : Val
  longitude : Val
  interpolated : Bool
deriving DecidableEq, Repr

/-- Value of the straight line through points `p` and `q` at abscissa
`t` (the segment evaluation both `interp1d(kind='linear')` and
`np.interp` perform inside a segment). -/
def segEval (p q : ℤ × ℚ) (t : ℤ) : ℚ :=
  p.2 + (q.2 - p.2) * ((t : ℚ) - (p.1 : ℚ)) / ((q.1 : ℚ) - (p.1 : ℚ))

/-- One step of scipy's `interp1d._call_linear`:
`slope = (y_hi - y_lo) / (x_hi - x_lo)` then
`y_new = slope * (x_new - x_lo) + y_lo`, in IEEE float arithmetic
(finite operations exact over ℚ).  With a duplicated abscissa the slope
is 0/0 = NaN or ±∞ and the result is NaN (or ±∞), never an
exception. -/
def segLinear (lo hi : ℤ × ℚ) (t : ℤ) : Val :=
  Val.addV
    (Val.mulV
      (Val.divV (Val.num (hi.2 - lo.2)) (Val.num ((hi.1 : ℚ) - (lo.1 : ℚ))))
      (Val.num ((t : ℚ) - (lo.1 : ℚ))))
    (Val.num lo.2)

/-- The segment index `_call_linear` selects:
`searchsorted(x, t).clip(1, len(x)-1)` (the first index whose abscissa
is ≥ `t`, clipped into `[1, n-1]`; `List.findIdx` returns the length
when no element qualifies, exactly as `searchsorted` does). -/
def hiIdx (pts : List (ℤ × ℚ)) (t : ℤ) : ℕ :=
  min (max ((pts.map (·.1)).findIdx (fun x => t ≤ x)) 1) (pts.length - 1)

/-- `scipy.interpolate.interp1d(kind='linear', bounds_error=False,
fill_value='extrapolate')` evaluated at `t`.  Because
`fill_value='extrapolate'` disables the `np.interp` fast path, scipy
uses `_call_linear`: pick the segment `[hiIdx-1, hiIdx]` and apply the
slope arithmetic — linear inside the span, extension of the boundary
segment outside it, NaN/±∞ on a duplicated segment abscissa. -/
def callLinear (pts : List (ℤ × ℚ)) (t : ℤ) : Val :=
  segLinear (pts.getD (hiIdx pts t - 1) (0, 0)) (pts.getD (hiIdx pts t) (0, 0)) t

/-- `np.interp` evaluated at `t` for a sorted point list: piecewise
linear inside the span, clamped to the end values outside it; a single
point yields that point's value everywhere (the only case the fallback
path of `interpolate_positions` can reach, since it runs exactly when
fewer than 2 valid points exist). -/
def npInterp : List (ℤ × ℚ) → ℤ → ℚ
  | [], _ => 0
  | [p], _ => p.2
  | p :: q :: rest, t =>
      if t ≤ p.1 then p.2
      else if t ≤ q.1 then segEval p q t
      else npInterp (q :: rest) t

/-- Stable insertion of `a` into a list sorted on `key`. -/
def insBy (key : α → ℤ) (a : α) : List α → List α
  | [] => [a]
  | b :: bs => if key a ≤ key b then a :: b :: bs else b :: insBy key a bs

/-- Stable sort on an integer key (models `np.argsort` on timestamps and
`DataFrame.sort_values('datetime')`; stability is irrelevant for the
properties proved here since the keys involved are distinct). -/
def sortOn (key : α → ℤ) : List α → List α
  | [] => []
  | a :: as => insBy key a (sortOn key as)

/-- Insertion of a timestamp into a strictly sorted list, dropping
duplicates. -/
def insertTime (t : ℤ) : List ℤ → List ℤ
  | [] => [t]
  | h :: rest =>
      if t < h then t :: h :: rest
      else if t = h then h :: rest
      else h :: insertTime t rest

/-- `sorted(set(all_times))`: the unified timeline of
`integrate_data`. -/
def unifiedTimeline (ts : List ℤ) : List ℤ := ts.foldr insertTime []

/-- `abs((result['datetime'] - gps_time).dt.total_seconds()) < 30`:
the 30-second exact-fix tolerance, on nanosecond timestamps. -/
def closeB (a g : ℤ) : Bool := decide ((a - g).natAbs < 30000000000)

/-- The exact-fix marking loop of `interpolate_positions`: for each
recorded GPS timestamp, rows within the tolerance get
`interpolated = False`. -/
def markExact (gts : List ℤ) (rows : List PosRow) : List PosRow :=
  gts.foldl
    (fun rs g =>
      rs.map (fun r =>
        if closeB r.datetime g then { r with interpolated := false } else r))
    rows

/-- `valid_idx = ~(np.isnan(gps_lats) | np.isnan(gps_lons))` applied to
the track: the fixes whose two coordinates are present, as
`(timestamp, lat, lon)` triples. -/
def validPoints (track : List TrackPoint) : List (ℤ × ℚ × ℚ) :=
  track.filterMap (fun p =>
    match p.latitude, p.longitude with
    | some la, some lo => some (p.timestamp, la, lo)
    | _, _ => none)

/-- The `try` block of `interpolate_positions` together with its
`except` fallback: build the two `interp1d` objects (cubic only when the
method is `'cubic'` and at least 4 clean points are available, otherwise
linear — which raises when fewer than 2 points exist) and evaluate them
on the targets; on failure fall back to `np.interp`. -/
def runInterp (cubicF : List (ℤ × ℚ) → ℤ → ℚ) (method : String)
    (clean : List (ℤ × ℚ × ℚ)) (targets : List ℤ) : List (Val × Val) :=
  match (if method = "cubic" ∧ 4 ≤ clean.length then
      some (fun t => (Val.num (cubicF (clean.map (fun c => (c.1, c.2.1))) t),
        Val.num (cubicF (clean.map (fun c => (c.1, c.2.2))) t)))
    else if clean.length < 2 then none
    else some (fun t => (callLinear (clean.map (fun c => (c.1, c.2.1))) t,
      callLinear (clean.map (fun c => (c.1, c.2.2))) t)) :
      Option (ℤ → Val × Val)) with
  | some f => targets.map f
  | none =>
      targets.map (fun t =>
        (Val.num (npInterp (clean.map (fun c => (c.1, c.2.1))) t),
          Val.num (npInterp (clean.map (fun c => (c.1, c.2.2))) t)))

/-- `DrifterDataIntegrator.interpolate_positions`: returns one row per
target timestamp.  With no GPX data, an empty track or no valid
coordinates it degrades to all-NaN rows flagged interpolated; otherwise
it sorts the valid fixes by time, interpolates (or falls back), and then
marks rows within 30 s of any recorded fix as not interpolated. -/
def interpolate_positions (cubicF : List (ℤ × ℚ) → ℤ → ℚ) :
    Option (List TrackPoint) → List ℤ → String → List PosRow
  | none, targets, _ =>
      targets.map (fun t => ⟨t, Val.nan, Val.nan, true⟩)
  | some track, targets, method =>
      if track.length = 0 then
        targets.map (fun t => ⟨t, Val.nan, Val.nan, true⟩)
      else if (validPoints track).length = 0 then
        targets.map (fun t => ⟨t, Val.nan, Val.nan, true⟩)
      else
        markExact (track.map (·.timestamp))
          ((targets.zip (runInterp cubicF method
              (sortOn (fun c => c.1) (validPoints track)) targets)).map
            (fun p => ⟨p.1, p.2.1, p.2.2, true⟩))

/-- A DataFrame indexed by `datetime`: column names and rows of
`(index timestamp, cell values aligned with the columns)`. -/
structure Table where
  cols : List String
  rows : List (ℤ × List Val)
deriving DecidableEq, Repr

/-- Shape well-formedness of a DataFrame: every row has one cell per
column. -/
def Table.WF (t : Table) : Prop :=
  ∀ p ∈ t.rows, p.2.length = t.cols.length

/-- The interpolation result as a `datetime`-indexed frame (the state of
`integrated` right after `interpolate_positions` and `set_index`). -/
def posTable (rows : List PosRow) : Table :=
  { cols := ["latitude", "longitude", "interpolated"],
    rows := rows.map (fun r =>
      (r.datetime, [r.latitude, r.longitude, Val.boolV r.interpolated])) }

/-- `rename(columns={col: f'{pre}{col}' for col in columns if col not in
keep})`: per-source column prefixing. -/
def prefixCols (pre : String) (keep : List String) (t : Table) : Table :=
  { cols := t.cols.map (fun c => if keep.contains c then c else pre ++ c),
    rows := t.rows }

/-- The error kinds of the integration core, per the spec taxonomy:
`NoData` is the `ValueError` raised by `integrate_data` with nothing
loaded; `columnsOverlap` is the `ValueError` pandas `DataFrame.join`
raises when an unsuffixed column name occurs on both sides;
`notIntegrated` names the summary-before-integration condition (the
code never raises it). -/
inductive IntegrationError where
  | noData
  | columnsOverlap
  | notIntegrated
deriving DecidableEq, Repr

/-- `left.join(right, how='left')` on `datetime`-indexed frames: raises
when column names overlap; otherwise each left row is paired with every
right row carrying the same index value (duplicated right timestamps
duplicate the left row), and left rows without a match are padded with
NaN in the right columns.  `joinRows` is the per-left-row matching. -/
def joinRows (r : Table) (p : ℤ × List Val) : List (ℤ × List Val) :=
  match r.rows.filter (fun q => q.1 == p.1) with
  | [] => [(p.1, p.2 ++ List.replicate r.cols.length Val.nan)]
  | m :: ms => (m :: ms).map (fun m0 => (p.1, p.2 ++ m0.2))

def leftJoin (l r : Table) : Except IntegrationError Table :=
  if r.cols.any (fun c => l.cols.contains c) then .error .columnsOverlap
  else
    .ok { cols := l.cols ++ r.cols,
          rows := l.rows.flatMap (joinRows r) }

/-- `df[c]` for one row: cell lookup by column name. -/
def getVal (cols : List String) (vals : List Val) (c : String) : Val :=
  match cols.findIdx? (fun x => x == c) with
  | some i => vals.getD i Val.nan
  | none => Val.nan

/-- `df['datetime'].dt.hour` on a nanosecond UTC timestamp. -/
def hourOfNs (t : ℤ) : ℤ := (t.ediv 3600000000000).emod 24

/-- Proleptic Gregorian civil date `(year, month, day)` from days since
the Unix epoch (the calendar underlying `dt.dayofyear`). -/
def civilFromDays (z0 : ℤ) : ℤ × ℤ × ℤ :=
  let z := z0 + 719468
  let era := z.ediv 146097
  let doe := z - era * 146097
  let yoe := (doe - doe.ediv 1460 + doe.ediv 36524 - doe.ediv 146096).ediv 365
  let y := yoe + era * 400
  let doy := doe - (365 * yoe + yoe.ediv 4 - yoe.ediv 100)
  let mp := (5 * doy + 2).ediv 153
  let d := doy - (153 * mp + 2).ediv 5 + 1
  let m := mp + (if mp < 10 then 3 else -9)
  (if m ≤ 2 then y + 1 else y, m, d)

/-- Gregorian leap year. -/
def isLeap (y : ℤ) : Bool := (y.emod 4 == 0 && y.emod 100 != 0) || y.emod 400 == 0

/-- Days elapsed before the first of month `m` (1–12). -/
def daysBeforeMonth (m : ℤ) (leap : Bool) : ℤ :=
  let base :=
    if m ≤ 1 then 0 else if m = 2 then 31 else if m = 3 then 59
    else if m = 4 then 90 else if m = 5 then 120 else if m = 6 then 151
    else if m = 7 then 181 else if m = 8 then 212 else if m = 9 then 243
    else if m = 10 then 273 else if m = 11 then 304 else 334
  if 2 < m then (if leap then base + 1 else base) else base

/-- `df['datetime'].dt.dayofyear` on a nanosecond UTC timestamp. -/
def dayOfYearOfNs (t : ℤ) : ℤ :=
  let c := civilFromDays (t.ediv 86400000000000)
  daysBeforeMonth c.2.1 (isLeap c.1) + c.2.2

/-- `DrifterDataIntegrator._add_derived_columns`: append `hour`,
`day_of_year`, `time_diff_seconds` and — when latitude/longitude columns
are present, which holds for every integrated frame — `distance_km`
(haversine between consecutive rows, `distFn`, NaN-fed on the first row
as `shift(1)` produces) and `speed_kmh` per `speedOf`. -/
def addDerived (distFn : Val → Val → Val → Val → Val) (t : Table) : Table :=
  let hasPos := t.cols.contains "latitude" && t.cols.contains "longitude"
  { cols := t.cols ++ ["hour", "day_of_year", "time_diff_seconds"] ++
      (if hasPos then ["distance_km", "speed_kmh"] else []),
    rows := (t.rows.zip ((none : Option (ℤ × List Val)) :: t.rows.map some)).map
      (fun pr =>
        let r := pr.1
        let td : Val :=
          match pr.2 with
          | none => Val.nan
          | some p => Val.num (((r.1 - p.1 : ℤ) : ℚ) / 1000000000)
        let extra : List Val :=
          if hasPos then
            let dist : Val :=
              match pr.2 with
              | none =>
                  distFn Val.nan Val.nan (getVal t.cols r.2 "latitude")
                    (getVal t.cols r.2 "longitude")
              | some p =>
                  distFn (getVal t.cols p.2 "latitude")
                    (getVal t.cols p.2 "longitude")
                    (getVal t.cols r.2 "latitude")
                    (getVal t.cols r.2 "longitude")
            [dist, speedOf dist td]
          else []
        (r.1, r.2 ++ [Val.num (hourOfNs r.1), Val.num (dayOfYearOfNs r.1), td]
          ++ extra)) }

/-- `integrated.sort_values('datetime')`. -/
def sortTable (t : Table) : Table :=
  { cols := t.cols, rows := sortOn (·.1) t.rows }

/-- The timestamps a loaded sample source contributes to `all_times`
(nothing when absent or empty, its `datetime` index otherwise). -/
def srcTimes : Option Table → List ℤ
  | none => []
  | some t => t.rows.map (·.1)

/-- The timestamps the GPS track contributes to `all_times`. -/
def trackTimes : Option (List TrackPoint) → List ℤ
  | none => []
  | some tk => tk.map (·.timestamp)

/-- `all_times`: the timestamps collected from the loaded, non-empty
sources, in the order the source appends them (fluorometer, AquaTROLL,
GPS track). -/
def collectTimes (fluoro aqua : Option Table)
    (gpxData : Option (List TrackPoint)) : List ℤ :=
  srcTimes fluoro ++ srcTimes aqua ++ trackTimes gpxData

/-- One sample-source merge step of `integrate_data`: skipped when the
source is absent or empty, otherwise a left join of the renamed
(per-source prefixed) columns onto the accumulating frame. -/
def joinSource (pre : String) (keep : List String) (base : Table) :
    Option Table → Except IntegrationError Table
  | some s =>
      if s.rows = [] then .ok base
      else leftJoin base (prefixCols pre keep s)
  | none => .ok base

/-- The fluorometer merge step: columns get the `fluoro_` prefix
(`datetime` is the index, hence never a column to rename). -/
def joinFluoro (base : Table) (fluoro : Option Table) :
    Except IntegrationError Table :=
  joinSource "fluoro_" ["datetime"] base fluoro

/-- The AquaTROLL merge step: columns get the `aqua_` prefix, except the
names in `['datetime', 'latitude', 'longitude']`, which keep their raw
names. -/
def joinAqua (t1 : Table) (aqua : Option Table) :
    Except IntegrationError Table :=
  joinSource "aqua_" ["datetime", "latitude", "longitude"] t1 aqua

/-- `DrifterDataIntegrator.integrate_data`: collect every timestamp of
the loaded non-empty sources (raising `NoData` when there is none),
interpolate positions over the unified timeline, left-join the
fluorometer columns then the AquaTROLL columns, add the derived columns
and sort by timestamp. -/
def integrate_data (cubicF : List (ℤ × ℚ) → ℤ → ℚ)
    (distFn : Val → Val → Val → Val → Val)
    (gpxData : Option (List TrackPoint)) (fluoro aqua : Option Table)
    (method : String) : Except IntegrationError Table :=
  if collectTimes fluoro aqua gpxData = [] then .error .noData
  else
    match joinFluoro
        (posTable (interpolate_positions cubicF gpxData
          (unifiedTimeline (collectTimes fluoro aqua gpxData)) method))
        fluoro with
    | .error e => .error e
    | .ok t1 =>
        match joinAqua t1 aqua with
        | .error e => .error e
        | .ok t2 => .ok (sortTable (addDerived distFn t2))

/-- The column count a sample source contributes to the joined frame
(0 when the source is absent or empty and its join is skipped). -/
def srcWidth : Option Table → ℕ
  | none => 0
  | some f => if f.rows = [] then 0 else f.cols.length

/-- The record `get_summary` returns: either the error indicator
dictionary or the summary statistics.  The spatial-extent block
aggregates float columns (min/max/sum over NaN-skipping series) that no
stated property references; it is represented by the fields below. -/
structure SummaryStats where
  total_records : ℕ
  time_start : Option ℤ
  time_end : Option ℤ
  duration_hours : Option ℚ
  fluoro_records_with_data : Option ℕ
  aqua_records_with_data : Option ℕ
  columns : List String
deriving DecidableEq, Repr

/-- Result value of `get_summary`. -/
inductive Summary where
  | errIndicator (msg : String)
  | stats (s : SummaryStats)
deriving DecidableEq, Repr

/-- `dropna(how='all')` count over the columns carrying a prefix: rows
where at least one such cell is non-null. -/
def coverageCount (t : Table) (pre : String) : ℕ :=
  t.rows.countP (fun p =>
    (t.cols.zip p.2).any (fun cv =>
      cv.1.startsWith pre && decide (cv.2 ≠ Val.nan)))

/-- `DrifterDataIntegrator.get_summary`: with no integrated data it
returns the error-indicator dictionary (it raises nothing); otherwise
the summary statistics of the integrated frame. -/
def get_summary (integrated : Option Table) : Except IntegrationError Summary :=
  match integrated with
  | none => .ok (.errIndicator "No integrated data available")
  | some df =>
      let idx := df.rows.map (·.1)
      .ok (.stats
        { total_records := df.rows.length,
          time_start := idx.min?,
          time_end := idx.max?,
          duration_hours :=
            match idx.min?, idx.max? with
            | some a, some b => some (((b - a : ℤ) : ℚ) / 3600000000000)
            | _, _ => none,
          fluoro_records_with_data :=
            if df.cols.any (·.startsWith "fluoro_") then
              some (coverageCount df "fluoro_")
            else none,
          aqua_records_with_data :=
            if df.cols.any (·.startsWith "aqua_") then
              some (coverageCount df "aqua_")
            else none,
          columns := df.cols })


/-! ### Concrete fixtures used by counterexamples and witnesses -/

/-- A two-fix GPS track (0 s and 100 s). -/
def gpxC1 : List TrackPoint :=
  [⟨0, some 0, some 0⟩, ⟨100000000000, some 1, some 1⟩]

/-- A fluorometer table with two samples at the same timestamp. -/
def flDupC1 : Table :=
  ⟨["battery_volts"], [(0, [Val.num 1]), (0, [Val.num 2])]⟩

/-- Timestamp column of the Integrated table for the duplicated-sample
run. -/
def idxC1 : List ℤ :=
  match integrate_data (fun _ _ => 0) (fun _ _ _ _ => Val.nan) (some gpxC1)
      (some flDupC1) none "linear" with
  | .ok t => t.rows.map (·.1)
  | .error _ => []

/-- A fluorometer table with one sample at 50 s. -/
def flC1 : Table := ⟨["battery_volts"], [(50000000000, [Val.num 12])]⟩

/-- The Integrated table of the duplicate-free run. -/
def tblC1 : Table :=
  match integrate_data (fun _ _ => 0) (fun _ _ _ _ => Val.nan) (some gpxC1)
      (some flC1) none "linear" with
  | .ok t => t
  | .error _ => ⟨[], []⟩

/-- A two-fix GPS track for the position-source runs. -/
def gpxC5 : List TrackPoint :=
  [⟨0, some 0, some 0⟩, ⟨100000000000, some 1, some 1⟩]

/-- A water-quality table carrying its own `latitude` column. -/
def aquaC5 : Table := ⟨["latitude", "temp"], [(0, [Val.num 3, Val.num 4])]⟩

/-- The Integrated table of the GPS-only run. -/
def tblC5 : Table :=
  match integrate_data (fun _ _ => 0) (fun _ _ _ _ => Val.nan) (some gpxC5)
      none none "linear" with
  | .ok t => t
  | .error _ => ⟨[], []⟩

/-! ## Helper lemmas -/

theorem mem_insertTime {x t : ℤ} : ∀ {l : List ℤ},
    x ∈ insertTime t l ↔ x = t ∨ x ∈ l := by
  intro l
  induction l with
  | nil => simp [insertTime]
  | cons h rest ih =>
      by_cases h1 : t < h
      · simp [insertTime, h1]
      · by_cases h2 : t = h
        · subst h2
          simp only [insertTime, if_neg h1, if_pos rfl]
          constructor
          · intro hx; exact Or.inr hx
          · rintro (rfl | hx)
            · exact List.mem_cons_self _ _
            · exact hx
        · simp only [insertTime, if_neg h1, if_neg h2, List.mem_cons, ih]
          tauto

theorem pairwise_insertTime {t : ℤ} : ∀ {l : List ℤ},
    l.Pairwise (· < ·) → (insertTime t l).Pairwise (· < ·) := by
  intro l
  induction l with
  | nil =>
      intro _; simp [insertTime]
  | cons h rest ih =>
      intro hp
      rcases List.pairwise_cons.mp hp with ⟨hhd, htl⟩
      by_cases h1 : t < h
      · simp only [insertTime, if_pos h1]
        refine List.pairwise_cons.mpr ⟨?_, hp⟩
        intro x hx
        rcases List.mem_cons.mp hx with rfl | hx
        · exact h1
        · exact lt_trans h1 (hhd x hx)
      · by_cases h2 : t = h
        · subst h2; simp only [insertTime, if_neg h1, if_pos rfl]; exact hp
        · simp only [insertTime, if_neg h1, if_neg h2]
          refine List.pairwise_cons.mpr ⟨?_, ih htl⟩
          intro x hx
          rcases mem_insertTime.mp hx with rfl | hx
          · omega
          · exact hhd x hx

theorem mem_unifiedTimeline {x : ℤ} : ∀ {ts : List ℤ},
    x ∈ unifiedTimeline ts ↔ x ∈ ts := by
  intro ts
  induction ts with
  | nil => simp [unifiedTimeline]
  | cons h rest ih =>
      simp only [unifiedTimeline, List.foldr_cons]
      rw [show rest.foldr insertTime [] = unifiedTimeline rest from rfl]
      simp [mem_insertTime, ih]

theorem pairwise_unifiedTimeline : ∀ {ts : List ℤ},
    (unifiedTimeline ts).Pairwise (· < ·) := by
  intro ts
  induction ts with
  | nil => simp [unifiedTimeline]
  | cons h rest ih => exact pairwise_insertTime ih

theorem unifiedTimeline_ne_nil {ts : List ℤ} (h : ts ≠ []) :
    unifiedTimeline ts ≠ [] := by
  cases ts with
  | nil => exact absurd rfl h
  | cons a rest =>
      intro hcon
      have : a ∈ unifiedTimeline (a :: rest) :=
        mem_unifiedTimeline.mpr (List.mem_cons_self _ _)
      rw [hcon] at this
      exact List.not_mem_nil _ this

theorem mem_insBy {key : α → ℤ} {a x : α} : ∀ {l : List α},
    x ∈ insBy key a l ↔ x = a ∨ x ∈ l := by
  intro l
  induction l with
  | nil => simp [insBy]
  | cons b bs ih =>
      by_cases h : key a ≤ key b
      · simp [insBy, h]
      · simp only [insBy, if_neg h, List.mem_cons, ih]
        tauto

theorem length_insBy {key : α → ℤ} {a : α} : ∀ {l : List α},
    (insBy key a l).length = l.length + 1 := by
  intro l
  induction l with
  | nil => simp [insBy]
  | cons b bs ih =>
      by_cases h : key a ≤ key b
      · simp [insBy, h]
      · simp [insBy, h, ih]

theorem mem_sortOn {key : α → ℤ} {x : α} : ∀ {l : List α},
    x ∈ sortOn key l ↔ x ∈ l := by
  intro l
  induction l with
  | nil => simp [sortOn]
  | cons a as ih => simp [sortOn, mem_insBy, ih]

theorem length_sortOn {key : α → ℤ} : ∀ {l : List α},
    (sortOn key l).length = l.length := by
  intro l
  induction l with
  | nil => simp [sortOn]
  | cons a as ih => simp [sortOn, length_insBy, ih]

theorem sortOn_eq_self {key : α → ℤ} : ∀ {l : List α},
    l.Pairwise (fun a b => key a ≤ key b) → sortOn key l = l := by
  intro l
  induction l with
  | nil => intro _; rfl
  | cons a as ih =>
      intro hp
      rcases List.pairwise_cons.mp hp with ⟨hhd, htl⟩
      rw [sortOn, ih htl]
      cases as with
      | nil => rfl
      | cons b bs =>
          simp [insBy, hhd b (List.mem_cons_self _ _)]

theorem markExact_eq_map : ∀ (gts : List ℤ) (rows : List PosRow),
    markExact gts rows = rows.map (fun r =>
      { r with interpolated :=
          r.interpolated && !(gts.any (fun g => closeB r.datetime g)) }) := by
  intro gts
  induction gts with
  | nil =>
      intro rows
      simp only [markExact, List.foldl_nil, List.any_nil, Bool.not_false,
        Bool.and_true]
      exact (List.map_id'' (fun r => by cases r; rfl) rows).symm
  | cons g gts ih =>
      intro rows
      have step : markExact (g :: gts) rows =
          markExact gts (rows.map (fun r =>
            if closeB r.datetime g then { r with interpolated := false }
            else r)) := by
        simp [markExact, List.foldl_cons]
      rw [step, ih, List.map_map]
      apply List.map_congr_left
      intro r _
      by_cases h : closeB r.datetime g
      · simp [Function.comp, h, List.any_cons]
      · simp [Function.comp, h, List.any_cons]

theorem length_runInterp {cubicF : List (ℤ × ℚ) → ℤ → ℚ} {method : String}
    {clean : List (ℤ × ℚ × ℚ)} {targets : List ℤ} :
    (runInterp cubicF method clean targets).length = targets.length := by
  unfold runInterp
  by_cases h1 : method = "cubic" ∧ 4 ≤ clean.length
  · simp [h1]
  · by_cases h2 : clean.length < 2
    · simp [h1, h2]
    · simp [h1, h2]

theorem validPoints_nil : validPoints [] = [] := rfl

/-- Normal form of `interpolate_positions` on a track with at least one
valid fix: one row per target, interpolated coordinates present, flag
down exactly for targets within the tolerance of some recorded
timestamp. -/
theorem interp_valid_eq {cubicF : List (ℤ × ℚ) → ℤ → ℚ}
    {track : List TrackPoint} {targets : List ℤ} {method : String}
    (hv : validPoints track ≠ []) :
    interpolate_positions cubicF (some track) targets method =
      (targets.zip (runInterp cubicF method
          (sortOn (fun c => c.1) (validPoints track)) targets)).map
        (fun p => ⟨p.1, p.2.1, p.2.2,
          !((track.map (·.timestamp)).any (fun g => closeB p.1 g))⟩) := by
  have htrack : track.length ≠ 0 := by
    intro h
    rw [List.length_eq_zero] at h
    subst h
    exact hv validPoints_nil
  have hvlen : (validPoints track).length ≠ 0 := by
    intro h
    exact hv (List.length_eq_zero.mp h)
  rw [interpolate_positions, if_neg htrack, if_neg hvlen,
    markExact_eq_map, List.map_map]
  apply List.map_congr_left
  intro p _
  simp [Function.comp, Bool.true_and]

/-- Every branch of `interpolate_positions` emits exactly the target
timestamps, in order, as the `datetime` column. -/
theorem interp_map_datetime {cubicF : List (ℤ × ℚ) → ℤ → ℚ}
    {gpxData : Option (List TrackPoint)} {targets : List ℤ}
    {method : String} :
    (interpolate_positions cubicF gpxData targets method).map (·.datetime) =
      targets := by
  match gpxData with
  | none =>
      rw [interpolate_positions, List.map_map]
      exact List.map_id'' (fun _ => rfl) targets
  | some track =>
      by_cases hv : validPoints track = []
      · rw [interpolate_positions]
        by_cases ht : track.length = 0
        · rw [if_pos ht, List.map_map]
          exact List.map_id'' (fun _ => rfl) targets
        · rw [if_neg ht, if_pos (by rw [hv]; rfl), List.map_map]
          exact List.map_id'' (fun _ => rfl) targets
      · rw [interp_valid_eq hv, List.map_map]
        have hlen : targets.length ≤
            (runInterp cubicF method
              (sortOn (fun c => c.1) (validPoints track)) targets).length := by
          rw [length_runInterp]
        exact List.map_fst_zip _ _ hlen

/-- Characterisation of the rows of `interpolate_positions` on a track
with a valid fix: each row's coordinates are an output pair of the
interpolation run, and the exact-fix flag is determined by the
30-second scan over every recorded timestamp. -/
theorem mem_interp_valid {cubicF : List (ℤ × ℚ) → ℤ → ℚ}
    {track : List TrackPoint} {targets : List ℤ} {method : String}
    (hv : validPoints track ≠ [])
    {r : PosRow}
    (hr : r ∈ interpolate_positions cubicF (some track) targets method) :
    (∃ pc ∈ runInterp cubicF method
        (sortOn (fun c => c.1) (validPoints track)) targets,
      r.latitude = pc.1 ∧ r.longitude = pc.2) ∧
      r.interpolated =
        !((track.map (·.timestamp)).any (fun g => closeB r.datetime g)) := by
  rw [interp_valid_eq hv] at hr
  rcases List.mem_map.mp hr with ⟨p, hp, rfl⟩
  exact ⟨⟨p.2, (List.of_mem_zip hp).2, rfl, rfl⟩, rfl⟩

theorem posTable_index (rows : List PosRow) :
    (posTable rows).rows.map (·.1) = rows.map (·.datetime) := by
  simp only [posTable, List.map_map]
  exact List.map_congr_left (fun r _ => rfl)

theorem posTable_WF (rows : List PosRow) : (posTable rows).WF := by
  intro p hp
  rcases List.mem_map.mp hp with ⟨r, _, rfl⟩
  rfl

theorem mem_posTable {rows : List PosRow} {p : ℤ × List Val}
    (hp : p ∈ (posTable rows).rows) :
    ∃ r ∈ rows, p = (r.datetime,
      [r.latitude, r.longitude, Val.boolV r.interpolated]) := by
  rcases List.mem_map.mp hp with ⟨r, hr, rfl⟩
  exact ⟨r, hr, rfl⟩

theorem prefixCols_rows (pre : String) (keep : List String) (t : Table) :
    (prefixCols pre keep t).rows = t.rows := rfl

theorem prefixCols_cols_length (pre : String) (keep : List String) (t : Table) :
    (prefixCols pre keep t).cols.length = t.cols.length := by
  simp [prefixCols]

theorem filter_key_len_le_one {rows : List (ℤ × List Val)} {k : ℤ}
    (hnd : (rows.map (·.1)).Nodup) :
    (rows.filter (fun q => q.1 == k)).length ≤ 1 := by
  induction rows with
  | nil => simp
  | cons a rest ih =>
      rw [List.map_cons, List.nodup_cons] at hnd
      by_cases ha : a.1 == k
      · have hk : a.1 = k := by simpa using ha
        have hempty : rest.filter (fun q => q.1 == k) = [] := by
          rw [List.filter_eq_nil_iff]
          intro q hq hqk
          have hq1 : q.1 = k := by simpa using hqk
          apply hnd.1
          rw [hk, ← hq1]
          exact List.mem_map_of_mem (·.1) hq
        simp [List.filter_cons, ha, hempty]
      · rw [List.filter_cons, if_neg ha]
        exact ih hnd.2

theorem joinRows_map_fst {r : Table} {p : ℤ × List Val}
    (hnd : (r.rows.map (·.1)).Nodup) :
    (joinRows r p).map (·.1) = [p.1] := by
  unfold joinRows
  cases hfilter : r.rows.filter (fun q => q.1 == p.1) with
  | nil => simp
  | cons m ms =>
      have hlen := @filter_key_len_le_one r.rows p.1 hnd
      rw [hfilter] at hlen
      have hms : ms = [] := by
        cases ms with
        | nil => rfl
        | cons x xs => simp at hlen
      subst hms
      simp

theorem mem_joinRows {r : Table} {p q : ℤ × List Val}
    (hq : q ∈ joinRows r p) :
    q.1 = p.1 ∧
      ((p.1 ∉ r.rows.map (·.1) ∧
          q.2 = p.2 ++ List.replicate r.cols.length Val.nan) ∨
        ∃ m ∈ r.rows, m.1 = p.1 ∧ q.2 = p.2 ++ m.2) := by
  unfold joinRows at hq
  cases hfilter : r.rows.filter (fun q0 => q0.1 == p.1) with
  | nil =>
      rw [hfilter] at hq
      rcases List.mem_singleton.mp hq with rfl
      refine ⟨rfl, Or.inl ⟨?_, rfl⟩⟩
      intro hmem
      rcases List.mem_map.mp hmem with ⟨m, hm, hmk⟩
      have : m ∈ r.rows.filter (fun q0 => q0.1 == p.1) :=
        List.mem_filter.mpr ⟨hm, by simp [hmk]⟩
      rw [hfilter] at this
      exact List.not_mem_nil _ this
  | cons m ms =>
      rw [hfilter] at hq
      rcases List.mem_map.mp hq with ⟨m0, hm0, rfl⟩
      have hm0f : m0 ∈ r.rows.filter (fun q0 => q0.1 == p.1) := by
        rw [hfilter]; exact hm0
      rcases List.mem_filter.mp hm0f with ⟨hm0r, hm0k⟩
      exact ⟨rfl, Or.inr ⟨m0, hm0r, by simpa using hm0k, rfl⟩⟩

theorem leftJoin_error {l r : Table} {e : IntegrationError}
    (h : leftJoin l r = .error e) : e = .columnsOverlap := by
  unfold leftJoin at h
  by_cases hc : r.cols.any (fun c => l.cols.contains c)
  · rw [if_pos hc] at h
    cases h
    rfl
  · rw [if_neg hc] at h
    cases h

theorem leftJoin_ok_elim {l r t : Table} (h : leftJoin l r = .ok t) :
    t.cols = l.cols ++ r.cols ∧ t.rows = l.rows.flatMap (joinRows r) := by
  unfold leftJoin at h
  by_cases hc : r.cols.any (fun c => l.cols.contains c)
  · rw [if_pos hc] at h
    cases h
  · rw [if_neg hc] at h
    cases h
    exact ⟨rfl, rfl⟩

theorem leftJoin_ok_index {l r t : Table} (h : leftJoin l r = .ok t)
    (hnd : (r.rows.map (·.1)).Nodup) :
    t.rows.map (·.1) = l.rows.map (·.1) := by
  rw [(leftJoin_ok_elim h).2]
  induction l.rows with
  | nil => rfl
  | cons a rest ih =>
      rw [List.flatMap_cons, List.map_append, joinRows_map_fst hnd, ih]
      rfl

theorem mem_leftJoin_ok {l r t : Table} (h : leftJoin l r = .ok t)
    {p : ℤ × List Val} (hp : p ∈ t.rows) :
    ∃ pl ∈ l.rows, p.1 = pl.1 ∧
      ((p.1 ∉ r.rows.map (·.1) ∧
          p.2 = pl.2 ++ List.replicate r.cols.length Val.nan) ∨
        ∃ m ∈ r.rows, m.1 = p.1 ∧ p.2 = pl.2 ++ m.2) := by
  rw [(leftJoin_ok_elim h).2] at hp
  rcases List.mem_flatMap.mp hp with ⟨pl, hpl, hpj⟩
  rcases mem_joinRows hpj with ⟨hk, hrest⟩
  exact ⟨pl, hpl, hk, by rwa [← hk] at hrest⟩

theorem leftJoin_ok_WF {l r t : Table} (hl : l.WF) (hr : r.WF)
    (h : leftJoin l r = .ok t) : t.WF := by
  intro p hp
  rcases mem_leftJoin_ok h hp with ⟨pl, hpl, _, hcase⟩
  rw [(leftJoin_ok_elim h).1, List.length_append]
  rcases hcase with ⟨_, hval⟩ | ⟨m, hm, _, hval⟩
  · rw [hval, List.length_append, List.length_replicate, hl pl hpl]
  · rw [hval, List.length_append, hl pl hpl, hr m hm]

theorem joinSource_error {pre : String} {keep : List String} {b : Table}
    {src : Option Table} {e : IntegrationError}
    (h : joinSource pre keep b src = .error e) : e = .columnsOverlap := by
  match src with
  | none => cases h
  | some s =>
      simp only [joinSource] at h
      by_cases hs : s.rows = []
      · rw [if_pos hs] at h
        cases h
      · rw [if_neg hs] at h
        exact leftJoin_error h

theorem joinSource_ok_index {pre : String} {keep : List String} {b t : Table}
    {src : Option Table} (h : joinSource pre keep b src = .ok t)
    (hnd : (srcTimes src).Nodup) :
    t.rows.map (·.1) = b.rows.map (·.1) := by
  match src with
  | none => cases h; rfl
  | some s =>
      simp only [joinSource] at h
      by_cases hs : s.rows = []
      · rw [if_pos hs] at h
        cases h
        rfl
      · rw [if_neg hs] at h
        exact leftJoin_ok_index h hnd

theorem joinSource_ok_cols {pre : String} {keep : List String} {b t : Table}
    {src : Option Table} (h : joinSource pre keep b src = .ok t) :
    ∃ extra : List String, t.cols = b.cols ++ extra := by
  match src with
  | none => cases h; exact ⟨[], by simp⟩
  | some s =>
      simp only [joinSource] at h
      by_cases hs : s.rows = []
      · rw [if_pos hs] at h
        cases h
        exact ⟨[], by simp⟩
      · rw [if_neg hs] at h
        exact ⟨(prefixCols pre keep s).cols, (leftJoin_ok_elim h).1⟩

/-- Row structure through one source join: every output row extends an
input row by `srcWidth src` cells, and rows whose timestamp is unmatched
in the source carry exactly the NaN padding there. -/
theorem mem_joinSource_ok {pre : String} {keep : List String} {b t : Table}
    {src : Option Table} (h : joinSource pre keep b src = .ok t)
    (hwf : ∀ s, src = some s → s.WF)
    {p : ℤ × List Val} (hp : p ∈ t.rows) :
    ∃ pl ∈ b.rows, p.1 = pl.1 ∧ ∃ suffix : List Val,
      suffix.length = srcWidth src ∧ p.2 = pl.2 ++ suffix ∧
      (∀ s, src = some s → s.rows ≠ [] → p.1 ∉ s.rows.map (·.1) →
        suffix = List.replicate s.cols.length Val.nan) := by
  match src with
  | none =>
      cases h
      refine ⟨p, hp, rfl, [], rfl, by simp, ?_⟩
      intro s hs
      cases hs
  | some s =>
      simp only [joinSource] at h
      by_cases hs : s.rows = []
      · rw [if_pos hs] at h
        cases h
        refine ⟨p, hp, rfl, [], ?_, by simp, ?_⟩
        · simp [srcWidth, hs]
        · intro s0 hs0 hne
          cases hs0
          exact absurd hs hne
      · rw [if_neg hs] at h
        rcases mem_leftJoin_ok h hp with ⟨pl, hpl, hk, hcase⟩
        have hwfs := hwf s rfl
        rcases hcase with ⟨hnomatch, hval⟩ | ⟨m, hm, hmk, hval⟩
        · refine ⟨pl, hpl, hk,
            List.replicate (prefixCols pre keep s).cols.length Val.nan,
            ?_, hval, ?_⟩
          · simp [srcWidth, hs, prefixCols]
          · intro s0 hs0 _ _
            cases hs0
            simp [prefixCols]
        · refine ⟨pl, hpl, hk, m.2, ?_, hval, ?_⟩
          · rw [prefixCols_rows] at hm
            rw [hwfs m hm]
            simp [srcWidth, hs]
          · intro s0 hs0 _ hnot
            cases hs0
            rw [prefixCols_rows] at hm
            exact absurd (hmk ▸ List.mem_map_of_mem (·.1) hm) hnot

theorem joinSource_ok_WF {pre : String} {keep : List String} {b t : Table}
    {src : Option Table} (h : joinSource pre keep b src = .ok t)
    (hb : b.WF) (hwf : ∀ s, src = some s → s.WF) : t.WF := by
  match src with
  | none => cases h; exact hb
  | some s =>
      simp only [joinSource] at h
      by_cases hs : s.rows = []
      · rw [if_pos hs] at h
        cases h
        exact hb
      · rw [if_neg hs] at h
        refine leftJoin_ok_WF hb ?_ h
        intro p hp
        rw [prefixCols_rows] at hp
        rw [prefixCols_cols_length]
        exact hwf s rfl p hp

theorem addDerived_index (distFn : Val → Val → Val → Val → Val) (t : Table) :
    (addDerived distFn t).rows.map (·.1) = t.rows.map (·.1) := by
  have h1 : (addDerived distFn t).rows.map (·.1) =
      (t.rows.zip ((none : Option (ℤ × List Val)) :: t.rows.map some)).map
        (fun pr => pr.1.1) := by
    simp only [addDerived, List.map_map]
    exact List.map_congr_left (fun pr _ => rfl)
  have h2 : (t.rows.zip ((none : Option (ℤ × List Val)) :: t.rows.map some)).map
      (fun pr => pr.1.1) =
      ((t.rows.zip ((none : Option (ℤ × List Val)) ::
          t.rows.map some)).map Prod.fst).map (·.1) := by
    rw [List.map_map]
    exact List.map_congr_left (fun pr _ => rfl)
  rw [h1, h2, List.map_fst_zip]
  simp

theorem mem_addDerived {distFn : Val → Val → Val → Val → Val} {t : Table}
    {p : ℤ × List Val} (hp : p ∈ (addDerived distFn t).rows) :
    ∃ r ∈ t.rows, p.1 = r.1 ∧ ∃ extra : List Val, p.2 = r.2 ++ extra := by
  simp only [addDerived] at hp
  rcases List.mem_map.mp hp with ⟨pr, hpr, rfl⟩
  rcases List.of_mem_zip hpr with ⟨hr, _⟩
  exact ⟨pr.1, hr, rfl, _, List.append_assoc _ _ _⟩

/-- With position columns present, every derived row ends in the
`[time_diff_seconds, distance_km, speed_kmh]` cells, the speed cell
computed by `speedOf` from the other two. -/
theorem mem_addDerived_pos {distFn : Val → Val → Val → Val → Val} {t : Table}
    (hla : "latitude" ∈ t.cols) (hlo : "longitude" ∈ t.cols)
    {p : ℤ × List Val} (hp : p ∈ (addDerived distFn t).rows) :
    ∃ (rest : List Val) (td dist : Val),
      p.2 = rest ++ [td, dist, speedOf dist td] := by
  have hpos : (t.cols.contains "latitude" && t.cols.contains "longitude") =
      true := by
    simpa using And.intro hla hlo
  simp only [addDerived, hpos, if_true] at hp
  rcases List.mem_map.mp hp with ⟨pr, _, rfl⟩
  rcases pr with ⟨r, prev⟩
  cases prev with
  | none =>
      refine ⟨r.2 ++ [Val.num (hourOfNs r.1), Val.num (dayOfYearOfNs r.1)],
        Val.nan,
        distFn Val.nan Val.nan (getVal t.cols r.2 "latitude")
          (getVal t.cols r.2 "longitude"), ?_⟩
      simp
  | some q =>
      refine ⟨r.2 ++ [Val.num (hourOfNs r.1), Val.num (dayOfYearOfNs r.1)],
        Val.num (((r.1 - q.1 : ℤ) : ℚ) / 1000000000),
        distFn (getVal t.cols q.2 "latitude") (getVal t.cols q.2 "longitude")
          (getVal t.cols r.2 "latitude")
          (getVal t.cols r.2 "longitude"), ?_⟩
      simp

theorem sortTable_eq_self {t : Table}
    (h : (t.rows.map (·.1)).Pairwise (· ≤ ·)) : sortTable t = t := by
  unfold sortTable
  have hp : t.rows.Pairwise (fun a b => a.1 ≤ b.1) := (List.pairwise_map).mp h
  have := @sortOn_eq_self (ℤ × List Val) (fun p => p.1) t.rows hp
  cases t
  simp only at this ⊢
  rw [this]

theorem mem_sortTable {t : Table} {p : ℤ × List Val} :
    p ∈ (sortTable t).rows ↔ p ∈ t.rows := mem_sortOn

theorem replaceInf_not_inf (v : Val) :
    replaceInf v ≠ Val.pinf ∧ replaceInf v ≠ Val.ninf := by
  cases v <;> simp [replaceInf]

theorem speedOf_not_inf (dist td : Val) :
    speedOf dist td ≠ Val.pinf ∧ speedOf dist td ≠ Val.ninf :=
  replaceInf_not_inf _

theorem speedOf_td_zero (dist : Val) : speedOf dist (Val.num 0) = Val.nan := by
  have h36 : Val.divV (Val.num 0) (Val.num 3600) = Val.num 0 := by
    simp [Val.divV]
  unfold speedOf
  rw [h36]
  cases dist with
  | num a =>
      rcases lt_trichotomy a 0 with ha | ha | ha
      · simp [Val.divV, replaceInf, ha, not_lt.mpr (le_of_lt ha), ne_of_lt ha]
      · simp [Val.divV, replaceInf, ha]
      · simp [Val.divV, replaceInf, ha, ne_of_gt ha]
  | pinf => simp [Val.divV, replaceInf]
  | ninf => simp [Val.divV, replaceInf]
  | nan => simp [Val.divV, replaceInf]
  | str s => simp [Val.divV, replaceInf]
  | boolV b => simp [Val.divV, replaceInf]

theorem speedOf_fin {d q : ℚ} (hq : q ≠ 0) :
    speedOf (Val.num d) (Val.num q) = Val.num (d / (q / 3600)) := by
  have h3600 : (3600 : ℚ) ≠ 0 := by norm_num
  have hq36 : q / 3600 ≠ 0 := div_ne_zero hq h3600
  simp [speedOf, Val.divV, h3600, hq36, replaceInf]

theorem integrate_ok_elim {cubicF : List (ℤ × ℚ) → ℤ → ℚ}
    {distFn : Val → Val → Val → Val → Val}
    {gpxData : Option (List TrackPoint)} {fluoro aqua : Option Table}
    {method : String} {tbl : Table}
    (h : integrate_data cubicF distFn gpxData fluoro aqua method = .ok tbl) :
    collectTimes fluoro aqua gpxData ≠ [] ∧
    ∃ t1 t2 : Table,
      joinFluoro (posTable (interpolate_positions cubicF gpxData
        (unifiedTimeline (collectTimes fluoro aqua gpxData)) method))
          fluoro = .ok t1 ∧
      joinAqua t1 aqua = .ok t2 ∧
      tbl = sortTable (addDerived distFn t2) := by
  unfold integrate_data at h
  by_cases hc : collectTimes fluoro aqua gpxData = []
  · rw [if_pos hc] at h
    cases h
  · rw [if_neg hc] at h
    refine ⟨hc, ?_⟩
    cases hf : joinFluoro (posTable (interpolate_positions cubicF gpxData
        (unifiedTimeline (collectTimes fluoro aqua gpxData)) method))
        fluoro with
    | error e =>
        simp only [hf] at h
        simp at h
    | ok t1 =>
        simp only [hf] at h
        cases ha : joinAqua t1 aqua with
        | error e =>
            simp only [ha] at h
            simp at h
        | ok t2 =>
            simp only [ha, Except.ok.injEq] at h
            exact ⟨t1, t2, rfl, ha, h.symm⟩

theorem integrate_empty {cubicF : List (ℤ × ℚ) → ℤ → ℚ}
    {distFn : Val → Val → Val → Val → Val}
    {gpxData : Option (List TrackPoint)} {fluoro aqua : Option Table}
    {method : String}
    (hc : collectTimes fluoro aqua gpxData = []) :
    integrate_data cubicF distFn gpxData fluoro aqua method =
      .error .noData := by
  unfold integrate_data
  rw [if_pos hc]

theorem integrate_error_kind {cubicF : List (ℤ × ℚ) → ℤ → ℚ}
    {distFn : Val → Val → Val → Val → Val}
    {gpxData : Option (List TrackPoint)} {fluoro aqua : Option Table}
    {method : String} {e : IntegrationError}
    (h : integrate_data cubicF distFn gpxData fluoro aqua method = .error e)
    (hc : collectTimes fluoro aqua gpxData ≠ []) :
    e = .columnsOverlap := by
  unfold integrate_data at h
  rw [if_neg hc] at h
  cases hf : joinFluoro (posTable (interpolate_positions cubicF gpxData
      (unifiedTimeline (collectTimes fluoro aqua gpxData)) method))
      fluoro with
  | error e0 =>
      simp only [hf, Except.error.injEq] at h
      rw [← h]
      exact joinSource_error hf
  | ok t1 =>
      simp only [hf] at h
      cases ha : joinAqua t1 aqua with
      | error e0 =>
          simp only [ha, Except.error.injEq] at h
          rw [← h]
          exact joinSource_error ha
      | ok t2 =>
          simp only [ha] at h
          simp at h

theorem runInterp_cubic_small {cubicF : List (ℤ × ℚ) → ℤ → ℚ}
    {clean : List (ℤ × ℚ × ℚ)} {targets : List ℤ}
    (h : clean.length < 4) :
    runInterp cubicF "cubic" clean targets =
      runInterp cubicF "linear" clean targets := by
  unfold runInterp
  have h1 : ¬("cubic" = "cubic" ∧ 4 ≤ clean.length) := by
    rintro ⟨_, hle⟩
    omega
  have h2 : ¬("linear" = "cubic" ∧ 4 ≤ clean.length) := by
    rintro ⟨hx, _⟩
    exact absurd hx (by decide)
  rw [if_neg h1, if_neg h2]

theorem runInterp_single {cubicF : List (ℤ × ℚ) → ℤ → ℚ} {method : String}
    {tp : ℤ} {la lo : ℚ} {targets : List ℤ} :
    runInterp cubicF method [(tp, la, lo)] targets =
      targets.map (fun _ => (Val.num la, Val.num lo)) := by
  unfold runInterp
  have h1 : ¬(method = "cubic" ∧
      4 ≤ ([(tp, la, lo)] : List (ℤ × ℚ × ℚ)).length) := by
    rintro ⟨_, hle⟩
    simp at hle
  rw [if_neg h1, if_pos (by simp)]
  show targets.map (fun t =>
      (Val.num (npInterp (List.map (fun c => (c.1, c.2.1)) [(tp, la, lo)]) t),
        Val.num (npInterp (List.map (fun c => (c.1, c.2.2))
          [(tp, la, lo)]) t))) =
    targets.map (fun _ => (Val.num la, Val.num lo))
  apply List.map_congr_left
  intro t _
  simp [npInterp]

theorem perm_insBy {key : α → ℤ} (a : α) : ∀ l : List α,
    List.Perm (insBy key a l) (a :: l) := by
  intro l
  induction l with
  | nil => exact List.Perm.refl _
  | cons b bs ih =>
      by_cases h : key a ≤ key b
      · rw [insBy, if_pos h]
      · rw [insBy, if_neg h]
        exact List.Perm.trans (List.Perm.cons _ ih) (List.Perm.swap _ _ _)

theorem perm_sortOn {key : α → ℤ} : ∀ l : List α,
    List.Perm (sortOn key l) l := by
  intro l
  induction l with
  | nil => exact List.Perm.refl _
  | cons a as ih =>
      exact List.Perm.trans (perm_insBy a (sortOn key as))
        (List.Perm.cons a ih)

theorem pairwise_le_insBy {key : α → ℤ} {a : α} : ∀ {l : List α},
    l.Pairwise (fun x y => key x ≤ key y) →
    (insBy key a l).Pairwise (fun x y => key x ≤ key y) := by
  intro l
  induction l with
  | nil => intro _; simp [insBy]
  | cons b bs ih =>
      intro hp
      rcases List.pairwise_cons.mp hp with ⟨hhd, htl⟩
      by_cases h : key a ≤ key b
      · rw [insBy, if_pos h]
        refine List.pairwise_cons.mpr ⟨?_, hp⟩
        intro x hx
        rcases List.mem_cons.mp hx with rfl | hx
        · exact h
        · exact le_trans h (hhd x hx)
      · rw [insBy, if_neg h]
        refine List.pairwise_cons.mpr ⟨?_, ih htl⟩
        intro x hx
        rcases mem_insBy.mp hx with rfl | hx
        · exact le_of_lt (not_le.mp h)
        · exact hhd x hx

theorem pairwise_le_sortOn {key : α → ℤ} : ∀ l : List α,
    (sortOn key l).Pairwise (fun x y => key x ≤ key y) := by
  intro l
  induction l with
  | nil => simp [sortOn]
  | cons a as ih => exact pairwise_le_insBy ih

/-- With internally distinct valid-fix timestamps, the sorted clean
abscissa list is strictly increasing. -/
theorem clean_strict_sorted {track : List TrackPoint}
    (hnd : ((validPoints track).map (·.1)).Nodup) :
    ((sortOn (fun c : ℤ × ℚ × ℚ => c.1) (validPoints track)).map
      (·.1)).Pairwise (· < ·) := by
  have hle : ((sortOn (fun c : ℤ × ℚ × ℚ => c.1) (validPoints track)).map
      (·.1)).Pairwise (· ≤ ·) :=
    List.pairwise_map.mpr (pairwise_le_sortOn _)
  have hperm : List.Perm
      ((sortOn (fun c : ℤ × ℚ × ℚ => c.1) (validPoints track)).map (·.1))
      ((validPoints track).map (·.1)) :=
    (perm_sortOn _).map _
  have hnd2 : ((sortOn (fun c : ℤ × ℚ × ℚ => c.1) (validPoints track)).map
      (·.1)).Nodup := hperm.nodup_iff.mpr hnd
  have hne : ((sortOn (fun c : ℤ × ℚ × ℚ => c.1) (validPoints track)).map
      (·.1)).Pairwise (· ≠ ·) := hnd2
  exact (hle.and hne).imp (fun h => lt_of_le_of_ne h.1 h.2)

theorem segLinear_finite {lo hi : ℤ × ℚ} (t : ℤ) (h : lo.1 ≠ hi.1) :
    ∃ q : ℚ, segLinear lo hi t = Val.num q := by
  have hne : ((hi.1 : ℚ) - (lo.1 : ℚ)) ≠ 0 := by
    rw [sub_ne_zero]
    exact_mod_cast Ne.symm h
  refine ⟨(hi.2 - lo.2) / ((hi.1 : ℚ) - (lo.1 : ℚ)) *
    ((t : ℚ) - (lo.1 : ℚ)) + lo.2, ?_⟩
  simp [segLinear, Val.divV, Val.mulV, Val.addV, hne]

theorem callLinear_finite {pts : List (ℤ × ℚ)} (t : ℤ)
    (h2 : 2 ≤ pts.length) (hs : (pts.map (·.1)).Pairwise (· < ·)) :
    ∃ q : ℚ, callLinear pts t = Val.num q := by
  have hn1 : 1 ≤ pts.length - 1 := by omega
  have hge : 1 ≤ hiIdx pts t := le_min (le_max_right _ _) hn1
  have hle1 : hiIdx pts t ≤ pts.length - 1 := min_le_right _ _
  have hlt : hiIdx pts t < pts.length := by omega
  have hlt' : hiIdx pts t - 1 < pts.length := by omega
  have hij : hiIdx pts t - 1 < hiIdx pts t := by omega
  have hmaplen : (pts.map (fun p : ℤ × ℚ => p.1)).length = pts.length := by
    simp
  have hx := List.pairwise_iff_getElem.mp hs (hiIdx pts t - 1) (hiIdx pts t)
    (by rw [hmaplen]; exact hlt') (by rw [hmaplen]; exact hlt) hij
  rw [List.getElem_map, List.getElem_map] at hx
  unfold callLinear
  apply segLinear_finite
  rw [List.getD_eq_getElem _ _ hlt', List.getD_eq_getElem _ _ hlt]
  exact ne_of_lt hx

/-- On a strictly sorted clean track, every interpolation branch yields
finite coordinates (the degenerate NaN/∞ slopes need a duplicated
abscissa). -/
theorem runInterp_finite {cubicF : List (ℤ × ℚ) → ℤ → ℚ} {method : String}
    {clean : List (ℤ × ℚ × ℚ)} {targets : List ℤ}
    (hs : (clean.map (·.1)).Pairwise (· < ·)) :
    ∀ pc ∈ runInterp cubicF method clean targets,
      pc.1.isNum = true ∧ pc.2.isNum = true := by
  have hlat : (clean.map (fun c : ℤ × ℚ × ℚ => (c.1, c.2.1))).map
      (fun p : ℤ × ℚ => p.1) = clean.map (·.1) := by
    rw [List.map_map]
    exact List.map_congr_left (fun _ _ => rfl)
  have hlon : (clean.map (fun c : ℤ × ℚ × ℚ => (c.1, c.2.2))).map
      (fun p : ℤ × ℚ => p.1) = clean.map (·.1) := by
    rw [List.map_map]
    exact List.map_congr_left (fun _ _ => rfl)
  intro pc hpc
  unfold runInterp at hpc
  by_cases h1 : method = "cubic" ∧ 4 ≤ clean.length
  · rw [if_pos h1] at hpc
    rcases List.mem_map.mp hpc with ⟨t, _, rfl⟩
    exact ⟨rfl, rfl⟩
  · rw [if_neg h1] at hpc
    by_cases h2 : clean.length < 2
    · rw [if_pos h2] at hpc
      rcases List.mem_map.mp hpc with ⟨t, _, rfl⟩
      exact ⟨rfl, rfl⟩
    · rw [if_neg h2] at hpc
      rcases List.mem_map.mp hpc with ⟨t, _, rfl⟩
      have hlen : 2 ≤ (clean.map (fun c : ℤ × ℚ × ℚ => (c.1, c.2.1))).length := by
        rw [List.length_map]
        omega
      have hlen' : 2 ≤ (clean.map (fun c : ℤ × ℚ × ℚ => (c.1, c.2.2))).length := by
        rw [List.length_map]
        omega
      obtain ⟨qa, hqa⟩ := callLinear_finite t hlen (by rw [hlat]; exact hs)
      obtain ⟨qb, hqb⟩ := callLinear_finite t hlen' (by rw [hlon]; exact hs)
      constructor
      · show (callLinear (clean.map (fun c => (c.1, c.2.1))) t).isNum = true
        rw [hqa]
        rfl
      · show (callLinear (clean.map (fun c => (c.1, c.2.2))) t).isNum = true
        rw [hqb]
        rfl

/-! ## Claims -/

/-- C2 counterexample: on a fresh integrator (no integrated data),
`get_summary` does not raise an `IntegrationError` of kind
`NotIntegrated` — it returns normally. -/
theorem C2_counterexample_no_raise :
    get_summary none ≠ Except.error IntegrationError.notIntegrated := by
  simp [get_summary]

/-- C2 (amended): calling `get_summary` before any integration has run
returns the error-indicator record `{"error": "No integrated data
available"}` instead of raising. -/
theorem C2_summary_before_integration :
    get_summary none =
      Except.ok (Summary.errIndicator "No integrated data available") := rfl

/-- C7: `integrate_data` fails with the `NoData` error exactly when all
three sources are absent or empty; with at least one non-empty
timestamped source loaded this error is not raised. -/
theorem C7_noData_iff_sources_empty (cubicF : List (ℤ × ℚ) → ℤ → ℚ)
    (distFn : Val → Val → Val → Val → Val)
    (gpxData : Option (List TrackPoint)) (fluoro aqua : Option Table)
    (method : String) :
    integrate_data cubicF distFn gpxData fluoro aqua method =
        .error .noData ↔
      (srcTimes fluoro = [] ∧ srcTimes aqua = [] ∧
        trackTimes gpxData = []) := by
  constructor
  · intro h
    by_cases hc : collectTimes fluoro aqua gpxData = []
    · unfold collectTimes at hc
      rcases List.append_eq_nil.mp hc with ⟨hfa, hg⟩
      rcases List.append_eq_nil.mp hfa with ⟨hf, ha⟩
      exact ⟨hf, ha, hg⟩
    · have := integrate_error_kind h hc
      cases this
  · rintro ⟨h1, h2, h3⟩
    apply integrate_empty
    unfold collectTimes
    rw [h1, h2, h3]
    rfl

/-- C7 witness: with nothing loaded the `NoData` error is raised; with a
one-point GPS track loaded it is not. -/
theorem C7_witness :
    integrate_data (fun _ _ => 0) (fun _ _ _ _ => Val.nan) none none none
        "linear" = .error .noData ∧
    integrate_data (fun _ _ => 0) (fun _ _ _ _ => Val.nan)
        (some [⟨0, some 1, some 2⟩]) none none "linear" ≠
      .error .noData := by
  constructor
  · exact (C7_noData_iff_sources_empty _ _ none none none _).mpr
      ⟨rfl, rfl, rfl⟩
  · intro h
    have := (C7_noData_iff_sources_empty (fun _ _ => 0)
      (fun _ _ _ _ => Val.nan) (some [⟨0, some 1, some 2⟩]) none none
      "linear").mp h
    simpa [trackTimes] using this.2.2

/-- C4: on a track with fewer than 4 valid fixes, `interpolate_positions`
with method `'cubic'` produces output identical to method `'linear'`
(silent fallback), whatever function the cubic spline would compute. -/
theorem C4_cubic_fallback (cubicF : List (ℤ × ℚ) → ℤ → ℚ)
    (track : List TrackPoint) (targets : List ℤ)
    (h4 : (validPoints track).length < 4) :
    interpolate_positions cubicF (some track) targets "cubic" =
      interpolate_positions cubicF (some track) targets "linear" := by
  by_cases ht : track.length = 0
  · rw [interpolate_positions, interpolate_positions, if_pos ht, if_pos ht]
  · by_cases hv : (validPoints track).length = 0
    · rw [interpolate_positions, interpolate_positions, if_neg ht, if_neg ht,
        if_pos hv, if_pos hv]
    · rw [interpolate_positions, interpolate_positions, if_neg ht, if_neg ht,
        if_neg hv, if_neg hv]
      have hclean : (sortOn (fun c => c.1) (validPoints track)).length < 4 := by
        rw [length_sortOn]
        exact h4
      rw [runInterp_cubic_small hclean]

/-- C4 witness: a two-fix track, one midpoint target. -/
theorem C4_witness :
    (validPoints [⟨0, some 0, some 0⟩,
      ⟨100000000000, some 1, some 1⟩]).length < 4 ∧
    interpolate_positions (fun _ _ => 0)
        (some [⟨0, some 0, some 0⟩, ⟨100000000000, some 1, some 1⟩])
        [50000000000] "cubic" =
      interpolate_positions (fun _ _ => 0)
        (some [⟨0, some 0, some 0⟩, ⟨100000000000, some 1, some 1⟩])
        [50000000000] "linear" :=
  ⟨by decide,
    C4_cubic_fallback (fun _ _ => 0)
      [⟨0, some 0, some 0⟩, ⟨100000000000, some 1, some 1⟩]
      [50000000000] (by decide)⟩

/-- C10: with exactly one valid fix, no error escapes: the `interp1d`
failure (it needs at least 2 points) is caught and the `np.interp`
fallback assigns that fix's coordinates to every target. -/
theorem C10_single_valid_point (cubicF : List (ℤ × ℚ) → ℤ → ℚ)
    (track : List TrackPoint) (targets : List ℤ) (method : String)
    (tp : ℤ) (la lo : ℚ) (hv : validPoints track = [(tp, la, lo)]) :
    (interpolate_positions cubicF (some track) targets method).map
        (·.datetime) = targets ∧
    ∀ r ∈ interpolate_positions cubicF (some track) targets method,
      r.latitude = Val.num la ∧ r.longitude = Val.num lo := by
  have hvne : validPoints track ≠ [] := by
    rw [hv]
    simp
  refine ⟨interp_map_datetime, ?_⟩
  intro r hr
  rw [interp_valid_eq hvne, hv] at hr
  have hsingle : sortOn (fun c : ℤ × ℚ × ℚ => c.1) [(tp, la, lo)] =
      [(tp, la, lo)] := rfl
  rw [hsingle, runInterp_single] at hr
  rcases List.mem_map.mp hr with ⟨p, hp, rfl⟩
  rcases List.of_mem_zip hp with ⟨_, hp2⟩
  rcases List.mem_map.mp hp2 with ⟨t0, _, hval⟩
  rw [← hval]
  exact ⟨rfl, rfl⟩

/-- C10 witness: a track whose first fix lacks a latitude and whose
second fix is the single valid point (5, 6). -/
theorem C10_witness :
    validPoints [⟨0, none, some 1⟩, ⟨7000000000, some 5, some 6⟩] =
      [(7000000000, 5, 6)] ∧
    ((interpolate_positions (fun _ _ => 0)
        (some [⟨0, none, some 1⟩, ⟨7000000000, some 5, some 6⟩])
        [0, 1000000000000] "linear").map (·.datetime) =
      [0, 1000000000000] ∧
    ∀ r ∈ interpolate_positions (fun _ _ => 0)
        (some [⟨0, none, some 1⟩, ⟨7000000000, some 5, some 6⟩])
        [0, 1000000000000] "linear",
      r.latitude = Val.num 5 ∧ r.longitude = Val.num 6) :=
  ⟨by decide,
    C10_single_valid_point (fun _ _ => 0)
      [⟨0, none, some 1⟩, ⟨7000000000, some 5, some 6⟩]
      [0, 1000000000000] "linear" 7000000000 5 6 (by decide)⟩

/-- C3: on a track with at least one valid fix, every target timestamp
gets exactly one output row, and any row whose timestamp lies within the
30-second tolerance of some recorded track timestamp (in particular one
equal to it) is flagged `is_interpolated = false`. -/
theorem C3_exact_fix_flag (cubicF : List (ℤ × ℚ) → ℤ → ℚ)
    (track : List TrackPoint) (targets : List ℤ) (method : String)
    (hv : validPoints track ≠ []) :
    (interpolate_positions cubicF (some track) targets method).map
        (·.datetime) = targets ∧
    ∀ r ∈ interpolate_positions cubicF (some track) targets method,
      (∃ g ∈ track, closeB r.datetime g.timestamp = true) →
      r.interpolated = false := by
  refine ⟨interp_map_datetime, ?_⟩
  intro r hr ⟨g, hg, hclose⟩
  rcases mem_interp_valid hv hr with ⟨_, hflag⟩
  rw [hflag]
  have hany : (track.map (·.timestamp)).any
      (fun g0 => closeB r.datetime g0) = true :=
    List.any_eq_true.mpr ⟨g.timestamp, List.mem_map_of_mem _ hg, hclose⟩
  rw [hany]
  rfl

/-- C3 witness: a target exactly equal to the first recorded fix is
flagged as an exact fix. -/
theorem C3_witness :
    validPoints [⟨0, some 10, some 20⟩,
        ⟨100000000000, some 10, some 21⟩] ≠ [] ∧
    ((interpolate_positions (fun _ _ => 0)
        (some [⟨0, some 10, some 20⟩, ⟨100000000000, some 10, some 21⟩])
        [0, 50000000000] "linear").map (·.datetime) = [0, 50000000000] ∧
    ∀ r ∈ interpolate_positions (fun _ _ => 0)
        (some [⟨0, some 10, some 20⟩, ⟨100000000000, some 10, some 21⟩])
        [0, 50000000000] "linear",
      (∃ g ∈ [⟨0, some 10, some 20⟩,
          (⟨100000000000, some 10, some 21⟩ : TrackPoint)],
        closeB r.datetime g.timestamp = true) →
      r.interpolated = false) :=
  ⟨by decide,
    C3_exact_fix_flag (fun _ _ => 0)
      [⟨0, some 10, some 20⟩, ⟨100000000000, some 10, some 21⟩]
      [0, 50000000000] "linear" (by decide)⟩

/-- C9 counterexample: the 10 s fix has a null latitude, so the target
0 s (within 30 s of it) is flagged `is_interpolated = false`; but the
track also duplicates the 0 s fix, so `_call_linear`'s slope at the
duplicated abscissa is 0/0 = NaN and the row's latitude and longitude
come out NaN (null) — the row does not carry an interpolated coordinate
value. -/
theorem C9_counterexample_duplicate_fix :
    closeB 0 10000000000 = true ∧
    (⟨10000000000, none, some 9⟩ : TrackPoint).latitude = none ∧
    (interpolate_positions (fun _ _ => 0)
        (some [⟨0, some 1, some 1⟩, ⟨0, some 1, some 1⟩,
          ⟨100000000000, some 2, some 2⟩, ⟨10000000000, none, some 9⟩])
        [0] "linear").map
      (fun r => (r.datetime, r.latitude, r.longitude, r.interpolated)) =
      [(0, Val.nan, Val.nan, false)] := by
  refine ⟨by decide, rfl, ?_⟩
  have hdup : segLinear ((0:ℤ),(1:ℚ)) ((0:ℤ),(1:ℚ)) 0 = Val.nan := by
    simp [segLinear, Val.divV, Val.mulV, Val.addV]
  have hcall : callLinear [((0:ℤ),(1:ℚ)), ((0:ℤ),(1:ℚ)), ((100000000000:ℤ),(2:ℚ))] 0
      = Val.nan := hdup
  have hmain : interpolate_positions (fun _ _ => 0)
      (some [⟨0, some 1, some 1⟩, ⟨0, some 1, some 1⟩,
        ⟨100000000000, some 2, some 2⟩, ⟨10000000000, none, some 9⟩])
      [0] "linear"
      = [⟨0, callLinear [((0:ℤ),(1:ℚ)), ((0:ℤ),(1:ℚ)), ((100000000000:ℤ),(2:ℚ))] 0,
          callLinear [((0:ℤ),(1:ℚ)), ((0:ℤ),(1:ℚ)), ((100000000000:ℤ),(2:ℚ))] 0,
          false⟩] := rfl
  rw [hmain, hcall]
  rfl

/-- C9 (amended): the exact-fix scan runs over every recorded track
timestamp, including fixes whose coordinates were discarded as invalid:
a row within 30 s of such a fix is flagged `is_interpolated = false`;
and provided the valid fixes have internally distinct timestamps (so no
degenerate 0/0 slope arises), the row still carries finite interpolated
coordinates. -/
theorem C9_invalid_fix_still_marks (cubicF : List (ℤ × ℚ) → ℤ → ℚ)
    (track : List TrackPoint) (targets : List ℤ) (method : String)
    (g : TrackPoint) (hv : validPoints track ≠ []) (hg : g ∈ track)
    (_hinvalid : g.latitude = none ∨ g.longitude = none)
    (hnd : ((validPoints track).map (·.1)).Nodup) :
    ∀ r ∈ interpolate_positions cubicF (some track) targets method,
      closeB r.datetime g.timestamp = true →
      r.interpolated = false ∧ r.latitude.isNum = true ∧
        r.longitude.isNum = true := by
  intro r hr hclose
  rcases mem_interp_valid hv hr with ⟨⟨pc, hpc, hla, hlo⟩, hflag⟩
  rcases runInterp_finite (clean_strict_sorted hnd) pc hpc with ⟨h1, h2⟩
  refine ⟨?_, by rw [hla]; exact h1, by rw [hlo]; exact h2⟩
  rw [hflag]
  have hany : (track.map (·.timestamp)).any
      (fun g0 => closeB r.datetime g0) = true :=
    List.any_eq_true.mpr ⟨g.timestamp, List.mem_map_of_mem _ hg, hclose⟩
  rw [hany]
  rfl

/-- C9 witness: the middle fix has a null latitude; the target equal to
its timestamp is flagged false yet carries finite interpolated
coordinates. -/
theorem C9_witness :
    validPoints [⟨0, some 0, some 0⟩, ⟨50000000000, none, some 5⟩,
        ⟨100000000000, some 1, some 1⟩] ≠ [] ∧
    (⟨50000000000, none, some 5⟩ : TrackPoint) ∈
      [⟨0, some 0, some 0⟩, ⟨50000000000, none, some 5⟩,
        (⟨100000000000, some 1, some 1⟩ : TrackPoint)] ∧
    ∀ r ∈ interpolate_positions (fun _ _ => 0)
        (some [⟨0, some 0, some 0⟩, ⟨50000000000, none, some 5⟩,
          ⟨100000000000, some 1, some 1⟩])
        [50000000000] "linear",
      closeB r.datetime 50000000000 = true →
      r.interpolated = false ∧ r.latitude.isNum = true ∧
        r.longitude.isNum = true :=
  ⟨by decide, by decide,
    C9_invalid_fix_still_marks (fun _ _ => 0)
      [⟨0, some 0, some 0⟩, ⟨50000000000, none, some 5⟩,
        ⟨100000000000, some 1, some 1⟩]
      [50000000000] "linear" ⟨50000000000, none, some 5⟩
      (by decide) (by decide) (Or.inl rfl) (by decide)⟩

/-- C6 counterexample: the target 110 s lies beyond the track's time
span (0 s .. 100 s) yet its extrapolated row is flagged
`is_interpolated = false`, because it sits within 30 s of the last
recorded fix — so the flag is not unconditionally true for extrapolated
points. -/
theorem C6_counterexample_out_of_span_marked :
    (∀ g ∈ [⟨0, some 0, some 0⟩,
        (⟨100000000000, some 1, some 1⟩ : TrackPoint)],
      g.timestamp < 110000000000) ∧
    (interpolate_positions (fun _ _ => 0)
        (some [⟨0, some 0, some 0⟩, ⟨100000000000, some 1, some 1⟩])
        [110000000000] "linear").map
      (fun r => (r.datetime, r.interpolated)) = [(110000000000, false)] := by
  exact ⟨by decide, by decide⟩

/-- C6 (amended): out-of-span targets are not rejected — each still
yields exactly one output row — and such a row is flagged
`is_interpolated = true` unless it lies within the 30-second tolerance
of some recorded track timestamp; provided the valid fixes have
internally distinct timestamps (so the boundary segment's slope is not
0/0), every row carries finite extrapolated coordinates. -/
theorem C6_extrapolation_flag (cubicF : List (ℤ × ℚ) → ℤ → ℚ)
    (track : List TrackPoint) (targets : List ℤ) (method : String)
    (hv : validPoints track ≠ []) :
    (interpolate_positions cubicF (some track) targets method).map
        (·.datetime) = targets ∧
    (∀ r ∈ interpolate_positions cubicF (some track) targets method,
      ((∀ g ∈ track, g.timestamp < r.datetime) ∨
        (∀ g ∈ track, r.datetime < g.timestamp)) →
      (∀ g ∈ track, closeB r.datetime g.timestamp = false) →
      r.interpolated = true) ∧
    (((validPoints track).map (·.1)).Nodup →
      ∀ r ∈ interpolate_positions cubicF (some track) targets method,
        r.latitude.isNum = true ∧ r.longitude.isNum = true) := by
  refine ⟨interp_map_datetime, ?_, ?_⟩
  · intro r hr _ hfar
    rcases mem_interp_valid hv hr with ⟨_, hflag⟩
    rw [hflag]
    have hany : (track.map (·.timestamp)).any
        (fun g0 => closeB r.datetime g0) = false := by
      rw [List.any_eq_false]
      intro g0 hg0
      rcases List.mem_map.mp hg0 with ⟨g, hg, rfl⟩
      simp [hfar g hg]
    rw [hany]
    rfl
  · intro hnd r hr
    rcases mem_interp_valid hv hr with ⟨⟨pc, hpc, hla, hlo⟩, _⟩
    rcases runInterp_finite (clean_strict_sorted hnd) pc hpc with ⟨h1, h2⟩
    exact ⟨by rw [hla]; exact h1, by rw [hlo]; exact h2⟩

/-- C6 witness: a target 60 s past the span end (farther than the
tolerance from both fixes) gets a row flagged true with finite
extrapolated coordinates. -/
theorem C6_witness :
    validPoints [⟨0, some 0, some 0⟩,
        ⟨100000000000, some 1, some 1⟩] ≠ [] ∧
    ((interpolate_positions (fun _ _ => 0)
        (some [⟨0, some 0, some 0⟩, ⟨100000000000, some 1, some 1⟩])
        [160000000000] "linear").map (·.datetime) = [160000000000] ∧
    (∀ r ∈ interpolate_positions (fun _ _ => 0)
        (some [⟨0, some 0, some 0⟩, ⟨100000000000, some 1, some 1⟩])
        [160000000000] "linear",
      ((∀ g ∈ [⟨0, some 0, some 0⟩,
          (⟨100000000000, some 1, some 1⟩ : TrackPoint)],
        g.timestamp < r.datetime) ∨
        (∀ g ∈ [⟨0, some 0, some 0⟩,
          (⟨100000000000, some 1, some 1⟩ : TrackPoint)],
          r.datetime < g.timestamp)) →
      (∀ g ∈ [⟨0, some 0, some 0⟩,
          (⟨100000000000, some 1, some 1⟩ : TrackPoint)],
        closeB r.datetime g.timestamp = false) →
      r.interpolated = true) ∧
    (((validPoints [⟨0, some 0, some 0⟩,
        (⟨100000000000, some 1, some 1⟩ : TrackPoint)]).map (·.1)).Nodup →
      ∀ r ∈ interpolate_positions (fun _ _ => 0)
        (some [⟨0, some 0, some 0⟩, ⟨100000000000, some 1, some 1⟩])
        [160000000000] "linear",
        r.latitude.isNum = true ∧ r.longitude.isNum = true)) :=
  ⟨by decide,
    C6_extrapolation_flag (fun _ _ => 0)
      [⟨0, some 0, some 0⟩, ⟨100000000000, some 1, some 1⟩]
      [160000000000] "linear" (by decide)⟩

/-- C8: in the table returned by the motion derivation every row ends in
`[time_diff_seconds, distance_km, speed_kmh]`, where `speed_kmh` is
never an infinity: it equals `distance_km / (time_diff_seconds / 3600)`
whenever both operands are finite and the time difference is non-zero,
and it is null (NaN) whenever the time difference is zero. -/
theorem C8_speed_never_infinite (distFn : Val → Val → Val → Val → Val)
    (t : Table) (hla : "latitude" ∈ t.cols) (hlo : "longitude" ∈ t.cols) :
    ∀ p ∈ (addDerived distFn t).rows,
      ∃ (rest : List Val) (td dist : Val),
        p.2 = rest ++ [td, dist, speedOf dist td] ∧
        speedOf dist td ≠ Val.pinf ∧ speedOf dist td ≠ Val.ninf ∧
        (td = Val.num 0 → speedOf dist td = Val.nan) ∧
        (∀ q d : ℚ, td = Val.num q → q ≠ 0 → dist = Val.num d →
          speedOf dist td = Val.num (d / (q / 3600))) := by
  intro p hp
  rcases mem_addDerived_pos hla hlo hp with ⟨rest, td, dist, hshape⟩
  refine ⟨rest, td, dist, hshape, (speedOf_not_inf dist td).1,
    (speedOf_not_inf dist td).2, ?_, ?_⟩
  · intro h0
    rw [h0]
    exact speedOf_td_zero dist
  · intro q d hq hq0 hd
    rw [hq, hd]
    exact speedOf_fin hq0

/-- C8 witness: two rows at the same timestamp make the second row's
time difference zero; its speed is null, not infinite. -/
theorem C8_witness :
    ("latitude" ∈ (Table.mk ["latitude", "longitude"]
        [(0, [Val.num 1, Val.num 2]), (0, [Val.num 3, Val.num 4])]).cols) ∧
    ∀ p ∈ (addDerived (fun _ _ _ _ => Val.num 5)
        (Table.mk ["latitude", "longitude"]
          [(0, [Val.num 1, Val.num 2]), (0, [Val.num 3, Val.num 4])])).rows,
      ∃ (rest : List Val) (td dist : Val),
        p.2 = rest ++ [td, dist, speedOf dist td] ∧
        speedOf dist td ≠ Val.pinf ∧ speedOf dist td ≠ Val.ninf ∧
        (td = Val.num 0 → speedOf dist td = Val.nan) ∧
        (∀ q d : ℚ, td = Val.num q → q ≠ 0 → dist = Val.num d →
          speedOf dist td = Val.num (d / (q / 3600))) :=
  ⟨by decide,
    C8_speed_never_infinite (fun _ _ _ _ => Val.num 5)
      (Table.mk ["latitude", "longitude"]
        [(0, [Val.num 1, Val.num 2]), (0, [Val.num 3, Val.num 4])])
      (by decide) (by decide)⟩

/-- C1 (amended): provided each loaded sample source has internally
distinct timestamps (and well-formed rows), the Integrated table has
exactly one row per distinct timestamp appearing in any loaded source:
its timestamp column is strictly increasing (hence duplicate-free), a
timestamp appears iff some loaded source carries it, and a row whose
timestamp is absent from a loaded source holds NaN in every one of that
source's prefixed columns.  (With duplicated timestamps inside a sample
source, the left join duplicates rows — see the counterexample.) -/
theorem C1_unified_timeline (cubicF : List (ℤ × ℚ) → ℤ → ℚ)
    (distFn : Val → Val → Val → Val → Val)
    (gpxData : Option (List TrackPoint)) (fluoro aqua : Option Table)
    (method : String) (tbl : Table)
    (hfnd : (srcTimes fluoro).Nodup) (hand : (srcTimes aqua).Nodup)
    (hfwf : ∀ f, fluoro = some f → f.WF)
    (hawf : ∀ a, aqua = some a → a.WF)
    (h : integrate_data cubicF distFn gpxData fluoro aqua method = .ok tbl) :
    (tbl.rows.map (·.1)).Pairwise (· < ·) ∧
    (∀ ts : ℤ, ts ∈ tbl.rows.map (·.1) ↔
      ts ∈ srcTimes fluoro ∨ ts ∈ srcTimes aqua ∨
        ts ∈ trackTimes gpxData) ∧
    (∀ f, fluoro = some f → f.rows ≠ [] →
      ∀ p ∈ tbl.rows, p.1 ∉ f.rows.map (·.1) →
        (p.2.drop 3).take f.cols.length =
          List.replicate f.cols.length Val.nan) ∧
    (∀ a, aqua = some a → a.rows ≠ [] →
      ∀ p ∈ tbl.rows, p.1 ∉ a.rows.map (·.1) →
        (p.2.drop (3 + srcWidth fluoro)).take a.cols.length =
          List.replicate a.cols.length Val.nan) := by
  obtain ⟨hc, t1, t2, hf, ha, htbl⟩ := integrate_ok_elim h
  unfold joinFluoro at hf
  unfold joinAqua at ha
  have hbase : (posTable (interpolate_positions cubicF gpxData
      (unifiedTimeline (collectTimes fluoro aqua gpxData)) method)).rows.map
        (·.1) = unifiedTimeline (collectTimes fluoro aqua gpxData) := by
    rw [posTable_index, interp_map_datetime]
  have ht1 : t1.rows.map (·.1) =
      unifiedTimeline (collectTimes fluoro aqua gpxData) := by
    rw [joinSource_ok_index hf hfnd, hbase]
  have ht2 : t2.rows.map (·.1) =
      unifiedTimeline (collectTimes fluoro aqua gpxData) := by
    rw [joinSource_ok_index ha hand, ht1]
  have hder : (addDerived distFn t2).rows.map (·.1) =
      unifiedTimeline (collectTimes fluoro aqua gpxData) := by
    rw [addDerived_index, ht2]
  have hsorted : ((addDerived distFn t2).rows.map (·.1)).Pairwise
      (· < ·) := by
    rw [hder]
    exact pairwise_unifiedTimeline
  have hident : sortTable (addDerived distFn t2) = addDerived distFn t2 :=
    sortTable_eq_self (hsorted.imp (fun hab => le_of_lt hab))
  rw [htbl, hident]
  refine ⟨hsorted, ?_, ?_, ?_⟩
  · intro ts
    rw [hder, mem_unifiedTimeline]
    unfold collectTimes
    simp [List.mem_append, or_assoc]
  · intro f hfl hfe p hp hnot
    rcases mem_addDerived hp with ⟨r2, hr2, hpk2, extra, hval2⟩
    rcases mem_joinSource_ok ha hawf hr2 with
      ⟨r1, hr1, hk21, sufA, hlenA, hvalA, _⟩
    rcases mem_joinSource_ok hf hfwf hr1 with
      ⟨r0, hr0, hk10, sufF, hlenF, hvalF, hpadF⟩
    rcases mem_posTable hr0 with ⟨prow, _, hr0eq⟩
    have hr0len : r0.2.length = 3 := by
      rw [hr0eq]
      rfl
    have hkey : p.1 = r1.1 := by rw [hpk2, hk21]
    have hsufF : sufF = List.replicate f.cols.length Val.nan := by
      apply hpadF f hfl hfe
      rw [← hkey]
      exact hnot
    have hval : p.2 = r0.2 ++ (sufF ++ (sufA ++ extra)) := by
      rw [hval2, hvalA, hvalF]
      simp [List.append_assoc]
    have hdrop0 : r0.2.drop 3 = [] := by
      rw [← hr0len]
      exact List.drop_length _
    rw [hval, List.drop_append_of_le_length (by rw [hr0len]), hdrop0,
      List.nil_append, hsufF,
      List.take_append_of_le_length (by simp), List.take_replicate]
    simp
  · intro a hal hae p hp hnot
    rcases mem_addDerived hp with ⟨r2, hr2, hpk2, extra, hval2⟩
    rcases mem_joinSource_ok ha hawf hr2 with
      ⟨r1, hr1, hk21, sufA, hlenA, hvalA, hpadA⟩
    rcases mem_joinSource_ok hf hfwf hr1 with
      ⟨r0, hr0, hk10, sufF, hlenF, hvalF, _⟩
    rcases mem_posTable hr0 with ⟨prow, _, hr0eq⟩
    have hr0len : r0.2.length = 3 := by
      rw [hr0eq]
      rfl
    have hsufA : sufA = List.replicate a.cols.length Val.nan := by
      apply hpadA a hal hae
      rw [← hpk2]
      exact hnot
    have hval : p.2 = (r0.2 ++ sufF) ++ (sufA ++ extra) := by
      rw [hval2, hvalA, hvalF]
      simp [List.append_assoc]
    have hlen01 : (r0.2 ++ sufF).length = 3 + srcWidth fluoro := by
      rw [List.length_append, hr0len, hlenF]
    have hdrop0 : (r0.2 ++ sufF).drop (3 + srcWidth fluoro) = [] := by
      rw [← hlen01]
      exact List.drop_length _
    rw [hval, List.drop_append_of_le_length (le_of_eq hlen01.symm), hdrop0,
      List.nil_append, hsufA,
      List.take_append_of_le_length (by simp), List.take_replicate]
    simp

/-- C1 counterexample: with a fluorometer source holding two samples at
the same timestamp, the Integrated table has two rows for that
timestamp — its timestamp column is neither duplicate-free nor strictly
increasing, refuting one-row-per-timestamp for arbitrary loaded
sources. -/
theorem C1_counterexample_duplicate_timestamps :
    idxC1 = [0, 0, 100000000000] ∧ ¬ idxC1.Nodup ∧
      ¬ idxC1.Pairwise (· < ·) :=
  ⟨by decide, by decide, by decide⟩

/-- C1 witness: a GPS track plus a duplicate-free fluorometer sample. -/
theorem C1_witness :
    (srcTimes (some flC1)).Nodup ∧ flC1.WF ∧
    integrate_data (fun _ _ => 0) (fun _ _ _ _ => Val.nan) (some gpxC1)
        (some flC1) none "linear" = .ok tblC1 ∧
    ((tblC1.rows.map (·.1)).Pairwise (· < ·) ∧
    (∀ ts : ℤ, ts ∈ tblC1.rows.map (·.1) ↔
      ts ∈ srcTimes (some flC1) ∨ ts ∈ srcTimes none ∨
        ts ∈ trackTimes (some gpxC1)) ∧
    (∀ f, some flC1 = some f → f.rows ≠ [] →
      ∀ p ∈ tblC1.rows, p.1 ∉ f.rows.map (·.1) →
        (p.2.drop 3).take f.cols.length =
          List.replicate f.cols.length Val.nan) ∧
    (∀ a, (none : Option Table) = some a → a.rows ≠ [] →
      ∀ p ∈ tblC1.rows, p.1 ∉ a.rows.map (·.1) →
        (p.2.drop (3 + srcWidth (some flC1))).take a.cols.length =
          List.replicate a.cols.length Val.nan)) :=
  ⟨by decide,
    (by decide : ∀ p ∈ flC1.rows, p.2.length = flC1.cols.length), rfl,
    C1_unified_timeline (fun _ _ => 0) (fun _ _ _ _ => Val.nan) (some gpxC1)
      (some flC1) none "linear" tblC1 (by decide) (by decide)
      (by
        intro f hfeq
        cases hfeq
        exact (by decide :
          ∀ p ∈ flC1.rows, p.2.length = flC1.cols.length))
      (by intro a haeq; cases haeq) rfl⟩

theorem mem_joinSource_ok_val {pre : String} {keep : List String}
    {b t : Table} {src : Option Table}
    (h : joinSource pre keep b src = .ok t)
    {p : ℤ × List Val} (hp : p ∈ t.rows) :
    ∃ pl ∈ b.rows, p.1 = pl.1 ∧ ∃ suffix : List Val,
      p.2 = pl.2 ++ suffix := by
  match src with
  | none =>
      cases h
      exact ⟨p, hp, rfl, [], by simp⟩
  | some s =>
      simp only [joinSource] at h
      by_cases hs : s.rows = []
      · rw [if_pos hs] at h
        cases h
        exact ⟨p, hp, rfl, [], by simp⟩
      · rw [if_neg hs] at h
        rcases mem_leftJoin_ok h hp with ⟨pl, hpl, hk, hcase⟩
        rcases hcase with ⟨_, hval⟩ | ⟨m, _, _, hval⟩
        · exact ⟨pl, hpl, hk, _, hval⟩
        · exact ⟨pl, hpl, hk, _, hval⟩

/-- C5 (amended): the unprefixed `latitude` and `longitude` of every row
of a successful integration come verbatim from the Position
Interpolator at that row's timestamp; but water-quality coordinate
columns are not dropped before joining — a non-empty AquaTROLL table
that carries a `latitude` or `longitude` column makes `integrate_data`
fail with the column-overlap error instead of being excluded. -/
theorem C5_position_source (cubicF : List (ℤ × ℚ) → ℤ → ℚ)
    (distFn : Val → Val → Val → Val → Val)
    (gpxData : Option (List TrackPoint)) (fluoro aqua : Option Table)
    (method : String) :
    (∀ tbl, integrate_data cubicF distFn gpxData fluoro aqua method =
        .ok tbl →
      ∀ p ∈ tbl.rows, ∃ prow ∈ interpolate_positions cubicF gpxData
          (unifiedTimeline (collectTimes fluoro aqua gpxData)) method,
        prow.datetime = p.1 ∧
        p.2.take 2 = [prow.latitude, prow.longitude]) ∧
    (∀ a, aqua = some a → a.rows ≠ [] →
      ("latitude" ∈ a.cols ∨ "longitude" ∈ a.cols) →
      collectTimes fluoro aqua gpxData ≠ [] →
      integrate_data cubicF distFn gpxData fluoro aqua method =
        .error .columnsOverlap) := by
  constructor
  · intro tbl h p hp
    obtain ⟨hc, t1, t2, hf, ha, htbl⟩ := integrate_ok_elim h
    unfold joinFluoro at hf
    unfold joinAqua at ha
    rw [htbl] at hp
    rw [show (sortTable (addDerived distFn t2)).rows =
        sortOn (·.1) (addDerived distFn t2).rows from rfl,
      mem_sortOn] at hp
    rcases mem_addDerived hp with ⟨r2, hr2, hpk2, extra, hval2⟩
    rcases mem_joinSource_ok_val ha hr2 with ⟨r1, hr1, hk21, sufA, hvalA⟩
    rcases mem_joinSource_ok_val hf hr1 with ⟨r0, hr0, hk10, sufF, hvalF⟩
    rcases mem_posTable hr0 with ⟨prow, hprow, hr0eq⟩
    have hr02 : r0.2 = [prow.latitude, prow.longitude,
        Val.boolV prow.interpolated] := by
      rw [hr0eq]
    refine ⟨prow, hprow, ?_, ?_⟩
    · rw [hpk2, hk21, hk10, hr0eq]
    · rw [hval2, hvalA, hvalF, hr02, List.append_assoc, List.append_assoc,
        List.take_append_of_le_length (by simp)]
      rfl
  · intro a hal hae hcols hct
    unfold integrate_data
    rw [if_neg hct]
    cases hf : joinFluoro (posTable (interpolate_positions cubicF gpxData
        (unifiedTimeline (collectTimes fluoro aqua gpxData)) method))
        fluoro with
    | error e =>
        simp only [hf]
        rw [joinSource_error hf]
    | ok t1 =>
        simp only [hf]
        have hover : joinAqua t1 aqua = .error .columnsOverlap := by
          rw [hal]
          unfold joinAqua
          simp only [joinSource]
          rw [if_neg hae]
          unfold leftJoin
          have hcontains : ∀ c, c ∈ t1.cols →
              t1.cols.contains c = true := by
            intro c hcmem
            simpa using hcmem
          have hb : ∀ c, c ∈ (posTable (interpolate_positions cubicF gpxData
              (unifiedTimeline (collectTimes fluoro aqua gpxData))
              method)).cols → c ∈ t1.cols := by
            intro c hcmem
            rcases joinSource_ok_cols hf with ⟨extraF, hcols1⟩
            rw [hcols1]
            exact List.mem_append_left _ hcmem
          have hany : ((prefixCols "aqua_"
              ["datetime", "latitude", "longitude"] a).cols.any
              (fun c => t1.cols.contains c)) = true := by
            rw [List.any_eq_true]
            rcases hcols with hla | hlo
            · refine ⟨"latitude", ?_, ?_⟩
              · simp only [prefixCols]
                exact List.mem_map.mpr ⟨"latitude", hla, by decide⟩
              · exact hcontains _ (hb _ (show "latitude" ∈
                  ["latitude", "longitude", "interpolated"] by decide))
            · refine ⟨"longitude", ?_, ?_⟩
              · simp only [prefixCols]
                exact List.mem_map.mpr ⟨"longitude", hlo, by decide⟩
              · exact hcontains _ (hb _ (show "longitude" ∈
                  ["latitude", "longitude", "interpolated"] by decide))
          rw [if_pos hany]
        simp only [hover]

/-- C5 counterexample: a non-empty water-quality table with a `latitude`
column is not excluded from the join — integration fails with the
column-overlap error rather than producing a table whose positions come
from the interpolator. -/
theorem C5_counterexample_overlap :
    "latitude" ∈ aquaC5.cols ∧ aquaC5.rows ≠ [] ∧
    integrate_data (fun _ _ => 0) (fun _ _ _ _ => Val.nan) (some gpxC5)
        none (some aquaC5) "linear" = .error .columnsOverlap :=
  ⟨by decide, by decide, rfl⟩

/-- C5 witness: in the successful GPS-only run every row's first two
cells are the interpolator's output; the overlap clause fires on the
`latitude`-carrying water-quality table. -/
theorem C5_witness :
    (∀ p ∈ tblC5.rows, ∃ prow ∈ interpolate_positions (fun _ _ => 0)
        (some gpxC5)
        (unifiedTimeline (collectTimes none none (some gpxC5))) "linear",
      prow.datetime = p.1 ∧
      p.2.take 2 = [prow.latitude, prow.longitude]) ∧
    integrate_data (fun _ _ => 0) (fun _ _ _ _ => Val.nan) (some gpxC5)
        none (some aquaC5) "linear" = .error .columnsOverlap :=
  ⟨(C5_position_source (fun _ _ => 0) (fun _ _ _ _ => Val.nan)
      (some gpxC5) none none "linear").1 tblC5 rfl,
    (C5_position_source (fun _ _ => 0) (fun _ _ _ _ => Val.nan)
      (some gpxC5) none (some aquaC5) "linear").2 aquaC5 rfl (by decide)
      (Or.inl (by decide)) (by simp [collectTimes, srcTimes, trackTimes,
        gpxC5])⟩
